import Mathlib

/-!
Verification development for the `aionevents` repository: a shallow embedding
of the event-emitter core (files `src/event.ts` and `src/event-emitter.ts`,
present in two near-identical variants) together with theorems settling the
frozen claims about it.

Modelling choices:
- A JS function value used as a callback is modelled by the inductive
  `Callback`: an opaque user function (identified by a numeric id), the
  null/undefined value, or the closure generated by `Once` (which captures the
  registration hook, the wrapped callback, and a fresh identity `uid` standing
  for the closure's reference identity).
- JS objects `{ hook: Event[] }` are insertion-ordered maps with unique keys;
  they are modelled as association lists `List (String × List Event)`
  (`lookupHook`, `setHook`, `pushEvent` mirror property read, property write,
  and the `obj[k] ??= []; obj[k].push(e)` idiom).
- Emitter references are modelled by numeric ids resolved in a total
  `World : Nat → EventEmitter` (a JS reference always resolves).
- Dispatch is stateful: `DS` threads the world, the list of callback
  invocations observed so far (`trace`), an allocation counter used to give
  each `\x7b ...params \x7d` copy a fresh object identity, and an error flag
  standing for a propagating TypeError. The loops of `fire` / `Fire` are
  transcribed iteration by iteration, preserving which loop bounds the JS code
  caches in a local (`const len = ...`) and which it re-reads each iteration,
  and which loops guard against null callbacks.
-/

/-- A params record: opaque field values keyed by strings. -/
abbrev Params := List (String × Nat)

/-- A JS function value usable as an event callback (or the null value).
The `wrapper` constructor is the closure created by EventEmitter.Once: it
captures the registration hook name, its own identity `uid`, and the wrapped
callback. -/
inductive Callback where
  | user (id : Nat)
  | nullCb
  | wrapper (hook : String) (uid : Nat) (inner : Callback)
deriving DecidableEq

/-- The Event class of src/event.ts: constructed from
\x7bhook, callback, source, params\x7d; `name` is set to the hook. The source
emitter is stored as its id. -/
structure Event where
  name : String
  callback : Callback
  source : Nat
  params : Params
deriving DecidableEq

/-- The Events type of src/event-emitter.ts: a hook-keyed mapping of event
sequences, as an insertion-ordered association list with unique keys. -/
abbrev Events := List (String × List Event)

/-- Property read `obj[hook]` on an Events object: undefined when absent. -/
def lookupHook : Events → String → Option (List Event)
  | [], _ => none
  | (k, v) :: rest, h => if k = h then some v else lookupHook rest h

/-- Property write `obj[hook] = evs` on an Events object: overwrites in place
when the key exists, otherwise appends the key at the end (JS insertion
order). -/
def setHook : Events → String → List Event → Events
  | [], k, v => [(k, v)]
  | (k', v') :: rest, k, v =>
    if k' = k then (k, v) :: rest else (k', v') :: setHook rest k v

/-- The idiom `obj[k] ??= []; obj[k].push(ev)` used by registerEvent. -/
def pushEvent (es : Events) (k : String) (ev : Event) : Events :=
  match lookupHook es k with
  | none => es ++ [(k, [ev])]
  | some evs => setHook es k (evs ++ [ev])

/-- The EventEmitter class state: both event buckets plus the wired-emitter
list (emitter references modelled as ids). -/
structure EventEmitter where
  instanceEvents : Events
  classEvents : Events
  wiredEmitters : List Nat
deriving DecidableEq

/-- EventEmitter.registerEvent: push the event into the class or the
instance bucket depending on isClassEvent. -/
def EventEmitter.registerEvent (target : EventEmitter) (event : Event)
    (isClassEvent : Bool) : EventEmitter :=
  if isClassEvent then
    { target with classEvents := pushEvent target.classEvents event.name event }
  else
    { target with instanceEvents := pushEvent target.instanceEvents event.name event }

/-- Static EventEmitter.On: build a new Event \x7bhook, callback, source,
params: \x7b\x7d\x7d and register it. `targetId` is the id of `target` (the
`source` field of the created event). Returns the updated target. -/
def EventEmitter.On (eventName : String) (callback : Callback) (targetId : Nat)
    (target : EventEmitter) (classDefined : Bool) : EventEmitter :=
  EventEmitter.registerEvent target ⟨eventName, callback, targetId, []⟩ classDefined

/-- Instance method on: delegates to On with classDefined = false. -/
def EventEmitter.on (self : EventEmitter) (eventName : String)
    (callback : Callback) (selfId : Nat) : EventEmitter :=
  EventEmitter.On eventName callback selfId self false

/-- Static EventEmitter.Once: registers the one-time wrapper closure around
the callback. `uid` is the fresh reference identity of the generated
closure. -/
def EventEmitter.Once (eventName : String) (callback : Callback) (uid : Nat)
    (targetId : Nat) (target : EventEmitter) (classDefined : Bool) : EventEmitter :=
  EventEmitter.registerEvent target
    ⟨eventName, Callback.wrapper eventName uid callback, targetId, []⟩ classDefined

/-- Instance method once: delegates to Once with classDefined = false. -/
def EventEmitter.once (self : EventEmitter) (eventName : String)
    (callback : Callback) (uid : Nat) (selfId : Nat) : EventEmitter :=
  EventEmitter.Once eventName callback uid selfId self false

/-- Array.prototype.find with the predicate (event) => event.callback ===
callback used by off. -/
def findCallback (cb : Callback) : List Event → Option Event
  | [] => none
  | ev :: rest => if ev.callback = cb then some ev else findCallback cb rest

/-- Array.prototype.indexOf by reference equality, as used by off on the
event returned by find (only ever called when the event is present). -/
def indexOfEvent (target : Event) : List Event → Nat
  | [] => 0
  | ev :: rest => if ev = target then 0 else indexOfEvent target rest + 1

/-- EventEmitter.off: return self when the hook is unregistered or no event
has the given callback; otherwise splice out the found event at its index.
Reads and writes only instanceEvents. -/
def EventEmitter.off (self : EventEmitter) (eventName : String)
    (callback : Callback) : EventEmitter :=
  match lookupHook self.instanceEvents eventName with
  | none => self
  | some evs =>
    match findCallback callback evs with
    | none => self
    | some eventToDelete =>
      { self with instanceEvents :=
          (setHook self.instanceEvents eventName
            (evs.eraseIdx (indexOfEvent eventToDelete evs))) }

/-- EventEmitter.wire: push the other emitter (by id) onto wiredEmitters. -/
def EventEmitter.wire (self : EventEmitter) (otherId : Nat) : EventEmitter :=
  { self with wiredEmitters := self.wiredEmitters ++ [otherId] }

/-- The object spread \x7b ...a, ...b \x7d on Events objects: keys of a in
order, then new keys of b appended; on a key collision the value from b
wins. -/
def spreadMerge (a b : Events) : Events :=
  b.foldl (fun acc kv => setHook acc kv.1 kv.2) a

/-- The events getter: return \x7b ...this.instanceEvents,
...this.classEvents \x7d. -/
def EventEmitter.events (self : EventEmitter) : Events :=
  spreadMerge self.instanceEvents self.classEvents

/-- The EventEmitter constructor, parameterised by the classEvents bucket
already populated by decorator registrations (decorators only ever register
with isClassEvent = true, so instanceEvents starts empty) and by the id the
new emitter will have. It sets wiredEmitters to [] and replays every
class-defined event through the normal instance `on` path. -/
def construct (classEvents0 : Events) (selfId : Nat) : EventEmitter :=
  classEvents0.foldl
    (fun em kv => kv.2.foldl (fun em2 ev => em2.on kv.1 ev.callback selfId) em)
    ⟨[], classEvents0, []⟩

/-- The value bound to `this` inside an invoked callback: either an emitter
instance or the EventEmitter class itself (what `this` denotes inside a
static method). -/
inductive Ctx where
  | inst (id : Nat)
  | classCtx
deriving DecidableEq

/-- One observed invocation of a user callback: the `this` binding, the user
callback id, the identity of the args object it received, and that object's
contents. -/
structure TraceEntry where
  ctx : Ctx
  cb : Nat
  argId : Nat
  contents : Params
deriving DecidableEq

/-- A propagating TypeError: calling a non-function, or reading a property
of undefined. -/
inductive JsError where
  | calledNonFunction
  | undefinedAccess
deriving DecidableEq

/-- The heap of emitters: every id resolves (a JS reference is never
dangling). -/
abbrev World := Nat → EventEmitter

/-- Replace the emitter stored at id i. -/
def setEm (w : World) (i : Nat) (em : EventEmitter) : World :=
  fun j => if j = i then em else w j

/-- Dispatch state threaded through fire: the emitter heap, the invocation
trace so far, the allocation counter giving each params copy its object
identity, and the pending exception if one was thrown. -/
structure DS where
  world : World
  trace : List TraceEntry
  nextObj : Nat
  err : Option JsError

/-- Calling a callback value with a given `this` binding and args object
(identity argId, contents args). A user callback is opaque: it only records
its invocation. Calling null throws. The Once wrapper first calls the
wrapped callback with the same `this` and the same args object, then calls
this.off(hook, itself); when `this` is the EventEmitter class (static Fire
dispatch), this.off is undefined and the call throws. -/
def invoke (ds : DS) (cb : Callback) (ctx : Ctx) (argId : Nat)
    (args : Params) : DS :=
  match cb with
  | .user id => { ds with trace := ds.trace ++ [⟨ctx, id, argId, args⟩] }
  | .nullCb => { ds with err := some JsError.calledNonFunction }
  | .wrapper hook uid inner =>
    let ds1 := invoke ds inner ctx argId args
    if ds1.err.isSome then ds1
    else
      match ctx with
      | .inst eid =>
        { ds1 with world :=
            (setEm ds1.world eid
              ((ds1.world eid).off hook (Callback.wrapper hook uid inner))) }
      | .classCtx => { ds1 with err := some JsError.calledNonFunction }

/-- The local loop of instance fire: `const len = ...length` is cached
before the loop (the `remaining` argument), while the array element is
re-read from the current heap each iteration; an index at or beyond the
current length yields undefined and the member access throws; a null
callback is not guarded against, so the call site throws on it. The `this`
binding is the firing emitter. -/
def localLoop (selfId : Nat) (eventName : String) (params : Params) :
    Nat → Nat → DS → DS
  | _, 0, ds => ds
  | i, r + 1, ds =>
    if ds.err.isSome then ds
    else
      match lookupHook (ds.world selfId).instanceEvents eventName with
      | none => { ds with err := some JsError.undefinedAccess }
      | some evs =>
        match evs.get? i with
        | none => { ds with err := some JsError.undefinedAccess }
        | some ev =>
          if ev.callback = Callback.nullCb then
            { ds with err := some JsError.calledNonFunction }
          else
            localLoop selfId eventName params (i + 1) r
              (invoke { ds with nextObj := ds.nextObj + 1 } ev.callback
                (Ctx.inst selfId) ds.nextObj params)

/-- The inner wired loop of instance fire: the loop bound
`...instanceEvents[eventName].length` is re-read from the current heap every
iteration (so the loop simply exits when the index reaches the shrunk
length), and an event whose callback is falsy is skipped by the `continue`
guard. The `this` binding is the wired emitter. The fuel argument only
bounds the recursion; it is chosen at the call site to be larger than the
number of iterations the re-read bound permits (event lists never grow
during a dispatch, because callbacks in-model mutate the heap only through
off). -/
def wiredInnerLoop (wId : Nat) (eventName : String) (params : Params) :
    Nat → Nat → DS → DS
  | _, 0, ds => ds
  | i, f + 1, ds =>
    if ds.err.isSome then ds
    else
      match lookupHook (ds.world wId).instanceEvents eventName with
      | none => { ds with err := some JsError.undefinedAccess }
      | some evs =>
        match evs.get? i with
        | none => ds
        | some ev =>
          if ev.callback = Callback.nullCb then
            wiredInnerLoop wId eventName params (i + 1) f ds
          else
            wiredInnerLoop wId eventName params (i + 1) f
              (invoke { ds with nextObj := ds.nextObj + 1 } ev.callback
                (Ctx.inst wId) ds.nextObj params)

/-- The outer wired loop of instance fire: the bound
`this.wiredEmitters.length` is re-read every iteration (wiredEmitters is
never mutated during a dispatch, so the fuel chosen at the call site
covers every iteration); a wired emitter with no bucket for the hook is
skipped by the `continue` guard. -/
def wiredOuterLoop (selfId : Nat) (eventName : String) (params : Params) :
    Nat → Nat → DS → DS
  | _, 0, ds => ds
  | w, f + 1, ds =>
    if ds.err.isSome then ds
    else
      match ((ds.world selfId).wiredEmitters).get? w with
      | none => ds
      | some wId =>
        match lookupHook (ds.world wId).instanceEvents eventName with
        | none => wiredOuterLoop selfId eventName params (w + 1) f ds
        | some evs =>
          wiredOuterLoop selfId eventName params (w + 1) f
            (wiredInnerLoop wId eventName params 0 (evs.length + 1) ds)

/-- Instance EventEmitter.fire: run the local loop when the hook's bucket
exists (any array, even empty, is truthy) with the length cached up front,
then the wired loops, and return `this` (the second component) for
chaining. -/
def fire (ds : DS) (selfId : Nat) (eventName : String) (params : Params) :
    DS × Nat :=
  let ds1 :=
    match lookupHook (ds.world selfId).instanceEvents eventName with
    | none => ds
    | some evs => localLoop selfId eventName params 0 evs.length ds
  (wiredOuterLoop selfId eventName params 0
      ((ds1.world selfId).wiredEmitters.length + 1) ds1, selfId)

/-- The local loop of the first static Fire variant: the bound is re-read
each iteration (no cached len), there is no null-callback guard, and the
`this` binding of every call is the EventEmitter class itself (`this` inside
a static method). -/
def fireLocalLoop (targetId : Nat) (eventName : String) (params : Params) :
    Nat → Nat → DS → DS
  | _, 0, ds => ds
  | i, f + 1, ds =>
    if ds.err.isSome then ds
    else
      match lookupHook (ds.world targetId).instanceEvents eventName with
      | none => { ds with err := some JsError.undefinedAccess }
      | some evs =>
        match evs.get? i with
        | none => ds
        | some ev =>
          if ev.callback = Callback.nullCb then
            { ds with err := some JsError.calledNonFunction }
          else
            fireLocalLoop targetId eventName params (i + 1) f
              (invoke { ds with nextObj := ds.nextObj + 1 } ev.callback
                Ctx.classCtx ds.nextObj params)

/-- The inner wired loop of the first static Fire variant: like the instance
one but with no null-callback guard (a null callback throws). -/
def fireWiredInnerLoop (wId : Nat) (eventName : String) (params : Params) :
    Nat → Nat → DS → DS
  | _, 0, ds => ds
  | i, f + 1, ds =>
    if ds.err.isSome then ds
    else
      match lookupHook (ds.world wId).instanceEvents eventName with
      | none => { ds with err := some JsError.undefinedAccess }
      | some evs =>
        match evs.get? i with
        | none => ds
        | some ev =>
          if ev.callback = Callback.nullCb then
            { ds with err := some JsError.calledNonFunction }
          else
            fireWiredInnerLoop wId eventName params (i + 1) f
              (invoke { ds with nextObj := ds.nextObj + 1 } ev.callback
                (Ctx.inst wId) ds.nextObj params)

/-- The outer wired loop of the first static Fire variant. -/
def fireWiredOuterLoop (targetId : Nat) (eventName : String)
    (params : Params) : Nat → Nat → DS → DS
  | _, 0, ds => ds
  | w, f + 1, ds =>
    if ds.err.isSome then ds
    else
      match ((ds.world targetId).wiredEmitters).get? w with
      | none => ds
      | some wId =>
        match lookupHook (ds.world wId).instanceEvents eventName with
        | none => fireWiredOuterLoop targetId eventName params (w + 1) f ds
        | some evs =>
          fireWiredOuterLoop targetId eventName params (w + 1) f
            (fireWiredInnerLoop wId eventName params 0 (evs.length + 1) ds)

/-- Static EventEmitter.Fire, first variant (src/event-emitter.ts lines
188-205): local loop with class `this`, then the wired loops. Void return. -/
def EventEmitter.Fire (ds : DS) (eventName : String) (targetId : Nat)
    (params : Params) : DS :=
  let ds1 :=
    match lookupHook (ds.world targetId).instanceEvents eventName with
    | none => ds
    | some evs => fireLocalLoop targetId eventName params 0 (evs.length + 1) ds
  fireWiredOuterLoop targetId eventName params 0
    ((ds1.world targetId).wiredEmitters.length + 1) ds1

/-- The local loop of the second static Fire variant: `const targetLen` is
cached, elements are re-read (an index beyond the shrunk length throws on
the undefined element), `this` is the class, no null guard. -/
def fire2LocalLoop (targetId : Nat) (eventName : String) (params : Params) :
    Nat → Nat → DS → DS
  | _, 0, ds => ds
  | i, r + 1, ds =>
    if ds.err.isSome then ds
    else
      match lookupHook (ds.world targetId).instanceEvents eventName with
      | none => { ds with err := some JsError.undefinedAccess }
      | some evs =>
        match evs.get? i with
        | none => { ds with err := some JsError.undefinedAccess }
        | some ev =>
          if ev.callback = Callback.nullCb then
            { ds with err := some JsError.calledNonFunction }
          else
            fire2LocalLoop targetId eventName params (i + 1) r
              (invoke { ds with nextObj := ds.nextObj + 1 } ev.callback
                Ctx.classCtx ds.nextObj params)

/-- The inner wired loop of the second static Fire variant: `const
wiredEventsLen` is cached, elements re-read, no null guard, `this` is the
wired emitter. -/
def fire2WiredInnerLoop (wId : Nat) (eventName : String) (params : Params) :
    Nat → Nat → DS → DS
  | _, 0, ds => ds
  | i, r + 1, ds =>
    if ds.err.isSome then ds
    else
      match lookupHook (ds.world wId).instanceEvents eventName with
      | none => { ds with err := some JsError.undefinedAccess }
      | some evs =>
        match evs.get? i with
        | none => { ds with err := some JsError.undefinedAccess }
        | some ev =>
          if ev.callback = Callback.nullCb then
            { ds with err := some JsError.calledNonFunction }
          else
            fire2WiredInnerLoop wId eventName params (i + 1) r
              (invoke { ds with nextObj := ds.nextObj + 1 } ev.callback
                (Ctx.inst wId) ds.nextObj params)

/-- The outer wired loop of the second static Fire variant: the bound is the
cached `const wiredLen = target._instanceEvents[eventName].length` (sic),
so the loop may index past the end of wiredEmitters, where reading
`._instanceEvents` of undefined throws. -/
def fire2WiredOuterLoop (targetId : Nat) (eventName : String)
    (params : Params) : Nat → Nat → DS → DS
  | _, 0, ds => ds
  | w, r + 1, ds =>
    if ds.err.isSome then ds
    else
      match ((ds.world targetId).wiredEmitters).get? w with
      | none => { ds with err := some JsError.undefinedAccess }
      | some wId =>
        match lookupHook (ds.world wId).instanceEvents eventName with
        | none => fire2WiredOuterLoop targetId eventName params (w + 1) r ds
        | some evs =>
          fire2WiredOuterLoop targetId eventName params (w + 1) r
            (fire2WiredInnerLoop wId eventName params 0 evs.length ds)

/-- Static EventEmitter.Fire, second variant (src/event-emitter.ts lines
434-454): after the guarded local loop it unconditionally evaluates
`target._instanceEvents[eventName].length` as the wired loop bound, which
throws when the hook has no bucket. -/
def EventEmitter.Fire2 (ds : DS) (eventName : String) (targetId : Nat)
    (params : Params) : DS :=
  let ds1 :=
    match lookupHook (ds.world targetId).instanceEvents eventName with
    | none => ds
    | some evs => fire2LocalLoop targetId eventName params 0 evs.length ds
  if ds1.err.isSome then ds1
  else
    match lookupHook (ds1.world targetId).instanceEvents eventName with
    | none => { ds1 with err := some JsError.undefinedAccess }
    | some evs2 =>
      fire2WiredOuterLoop targetId eventName params 0 evs2.length ds1

/-- Specification-side removal (from the spec of off): remove exactly the
first event whose callback equals the given one, keeping the rest in
order. Compared against the find/indexOf/splice computation of off. -/
def removeFirst : List Event → Callback → List Event
  | [], _ => []
  | ev :: rest, cb => if ev.callback = cb then rest else ev :: removeFirst rest cb

/-- Whether a callback value is an opaque user function. -/
def isUser : Callback → Bool
  | .user _ => true
  | _ => false

/-- The id of a user callback (0 on the other constructors). -/
def userId : Callback → Nat
  | .user i => i
  | _ => 0

/-- The event list an emitter currently holds for a hook ([] when the hook
has no bucket). -/
def hookEvents (w : World) (i : Nat) (hook : String) : List Event :=
  (lookupHook (w i).instanceEvents hook).getD []

/-- All events an emitter holds for a hook are plain user callbacks
(reducible so the property stays decidable on concrete emitters). -/
abbrev userOnlyAt (w : World) (i : Nat) (hook : String) : Prop :=
  ∀ ev ∈ hookEvents w i hook, isUser ev.callback = true

/-- The trace a run of user-only callbacks of a single emitter produces:
one entry per event, in list order, with consecutive args-object ids
starting at start. -/
def expectedEntries (ctxId : Nat) (p : Params) : Nat → List Event → List TraceEntry
  | _, [] => []
  | start, ev :: rest =>
    ⟨Ctx.inst ctxId, userId ev.callback, start, p⟩ ::
      expectedEntries ctxId p (start + 1) rest

/-- The trace the wired portion of a dispatch produces when every wired
emitter holds only user callbacks: the wired emitters in wiring order, each
contributing its hook bucket in list order. -/
def wiredExpected (w : World) (hook : String) (p : Params) : Nat → List Nat → List TraceEntry
  | _, [] => []
  | start, wid :: rest =>
    expectedEntries wid p start (hookEvents w wid hook)
      ++ wiredExpected w hook p (start + (hookEvents w wid hook).length) rest

/-- Total number of events the wired emitters hold for a hook. -/
def totalWired (w : World) (hook : String) : List Nat → Nat
  | [] => 0
  | wid :: rest => (hookEvents w wid hook).length + totalWired w hook rest

/-- Bookkeeping predicate for the freshness of params copies: every entry of
a trace segment carries an args-object id allocated in [n0, n1) and the
contents of the dispatched params, and ids strictly increase along the
segment. -/
def SpanTrace (n0 n1 : Nat) (p : Params) (l : List TraceEntry) : Prop :=
  (∀ en ∈ l, (n0 ≤ en.argId ∧ en.argId < n1) ∧ en.contents = p)
    ∧ l.Pairwise (fun a b => a.argId < b.argId)

@[simp] theorem lookupHook_nil (h : String) : lookupHook [] h = none := rfl

@[simp] theorem lookupHook_cons (k : String) (v : List Event) (es : Events) (h : String) :
    lookupHook ((k, v) :: es) h = if k = h then some v else lookupHook es h := rfl

theorem lookupHook_eq_none (es : Events) (h : String) (hm : h ∉ es.map Prod.fst) :
    lookupHook es h = none := by
  induction es with
  | nil => rfl
  | cons kv rest ih =>
    obtain ⟨k1, v1⟩ := kv
    simp only [List.map_cons, List.mem_cons, not_or] at hm
    obtain ⟨h1, h2⟩ := hm
    simp [Ne.symm h1, ih h2]

theorem lookupHook_setHook (es : Events) (k : String) (v : List Event) (h : String) :
    lookupHook (setHook es k v) h = if k = h then some v else lookupHook es h := by
  induction es with
  | nil => simp [setHook]
  | cons kv rest ih =>
    obtain ⟨k', v'⟩ := kv
    by_cases hk : k' = k
    · subst hk
      by_cases hh : k' = h <;> simp [setHook, hh]
    · by_cases hh : k' = h
      · subst hh
        have hkk : ¬(k = k') := fun e => hk e.symm
        simp [setHook, hk, hkk]
      · simp [setHook, hk, hh, ih]

theorem lookupHook_spreadMerge (b a : Events) (h : String)
    (hnd : (b.map Prod.fst).Nodup) :
    lookupHook (spreadMerge a b) h =
      match lookupHook b h with
      | some v => some v
      | none => lookupHook a h := by
  induction b generalizing a with
  | nil => simp [spreadMerge]
  | cons kv rest ih =>
    obtain ⟨k, v⟩ := kv
    simp only [List.map_cons, List.nodup_cons] at hnd
    have hmerge : spreadMerge a ((k, v) :: rest) = spreadMerge (setHook a k v) rest := rfl
    rw [hmerge, ih (setHook a k v) hnd.2]
    by_cases hh : k = h
    · subst hh
      have hrest : lookupHook rest k = none := lookupHook_eq_none rest k hnd.1
      simp [hrest, lookupHook_setHook]
    · cases hr : lookupHook rest h <;> simp [hr, lookupHook_setHook, hh]

/-- C1 counterexample: on an emitter whose instanceEvents and classEvents
both hold hook "h", the events getter returns the classEvents sequence, not
the instanceEvents one, so instance entries do not take precedence. -/
theorem events_instance_precedence_cex :
    lookupHook
        (EventEmitter.events
          ⟨[("h", [⟨"h", Callback.user 1, 0, []⟩])],
           [("h", [⟨"h", Callback.user 2, 0, []⟩])], []⟩) "h"
      ≠ some [⟨"h", Callback.user 1, 0, []⟩]
    ∧ lookupHook
        (EventEmitter.events
          ⟨[("h", [⟨"h", Callback.user 1, 0, []⟩])],
           [("h", [⟨"h", Callback.user 2, 0, []⟩])], []⟩) "h"
      = some [⟨"h", Callback.user 2, 0, []⟩] := by decide

/-- C1 (amended): the events getter returns the spread merge of
instanceEvents and classEvents, so it contains every hook of either bucket,
but on a hook-name collision the classEvents sequence takes precedence
(classEvents is spread last). -/
theorem events_merged_class_precedence (e : EventEmitter)
    (hnd : (e.classEvents.map Prod.fst).Nodup) (hook : String) :
    lookupHook e.events hook =
      match lookupHook e.classEvents hook with
      | some evs => some evs
      | none => lookupHook e.instanceEvents hook :=
  lookupHook_spreadMerge e.classEvents e.instanceEvents hook hnd

theorem events_merged_class_precedence_witness :
    lookupHook
        (EventEmitter.events
          ⟨[("a", [⟨"a", Callback.user 1, 0, []⟩])],
           [("b", [⟨"b", Callback.user 2, 0, []⟩])], []⟩) "a"
      = match lookupHook [("b", [⟨"b", Callback.user 2, 0, []⟩])] "a" with
        | some evs => some evs
        | none => lookupHook [("a", [⟨"a", Callback.user 1, 0, []⟩])] "a" :=
  events_merged_class_precedence
    ⟨[("a", [⟨"a", Callback.user 1, 0, []⟩])],
     [("b", [⟨"b", Callback.user 2, 0, []⟩])], []⟩ (by decide) "a"

theorem findCallback_eq_none (cb : Callback) (evs : List Event)
    (h : ∀ ev ∈ evs, ev.callback ≠ cb) : findCallback cb evs = none := by
  induction evs with
  | nil => rfl
  | cons ev rest ih =>
    have h1 : ev.callback ≠ cb := h ev (List.mem_cons_self ev rest)
    simp [findCallback, h1]
    exact ih (fun e he => h e (List.mem_cons_of_mem ev he))

theorem findCallback_some_callback (cb : Callback) (evs : List Event) (ev : Event)
    (h : findCallback cb evs = some ev) : ev.callback = cb := by
  induction evs with
  | nil => simp [findCallback] at h
  | cons e rest ih =>
    by_cases he : e.callback = cb
    · simp [findCallback, he] at h
      rw [← h]
      exact he
    · simp [findCallback, he] at h
      exact ih h

theorem removeFirst_of_no_match (evs : List Event) (cb : Callback)
    (h : ∀ ev ∈ evs, ev.callback ≠ cb) : removeFirst evs cb = evs := by
  induction evs with
  | nil => rfl
  | cons ev rest ih =>
    have h1 : ev.callback ≠ cb := h ev (List.mem_cons_self ev rest)
    simp [removeFirst, h1]
    exact ih (fun e he => h e (List.mem_cons_of_mem ev he))

theorem findCallback_none_no_match (cb : Callback) (evs : List Event)
    (h : findCallback cb evs = none) : ∀ ev ∈ evs, ev.callback ≠ cb := by
  induction evs with
  | nil => intro ev hev; simp at hev
  | cons e rest ih =>
    intro ev hev
    by_cases he : e.callback = cb
    · simp [findCallback, he] at h
    · simp [findCallback, he] at h
      rcases List.mem_cons.mp hev with h1 | h1
      · rw [h1]; exact he
      · exact ih h ev h1

theorem offList_eq_removeFirst (evs : List Event) (cb : Callback) :
    (match findCallback cb evs with
     | none => evs
     | some ev => evs.eraseIdx (indexOfEvent ev evs)) = removeFirst evs cb := by
  induction evs with
  | nil => rfl
  | cons e rest ih =>
    by_cases he : e.callback = cb
    · simp [findCallback, he, removeFirst, indexOfEvent, List.eraseIdx]
    · simp only [findCallback, he, if_false, removeFirst]
      cases hf : findCallback cb rest with
      | none =>
        simp only [hf] at ih
        simp [hf, removeFirst_of_no_match rest cb (findCallback_none_no_match cb rest hf)]
      | some ev =>
        have hne : e ≠ ev := by
          intro hcontra
          have := findCallback_some_callback cb rest ev hf
          rw [← hcontra] at this
          exact he this
        simp only [hf] at ih
        simp [hf, indexOfEvent, hne, List.eraseIdx, ih]

theorem eraseIdx_indexOf_eq_removeFirst (evs : List Event) (cb : Callback) (ev : Event)
    (hf : findCallback cb evs = some ev) :
    evs.eraseIdx (indexOfEvent ev evs) = removeFirst evs cb := by
  have h := offList_eq_removeFirst evs cb
  rw [hf] at h
  exact h

theorem off_lookup_self (self : EventEmitter) (eventName : String) (cb : Callback) :
    lookupHook (self.off eventName cb).instanceEvents eventName
      = (lookupHook self.instanceEvents eventName).map (fun evs => removeFirst evs cb) := by
  cases hl : lookupHook self.instanceEvents eventName with
  | none => simp [EventEmitter.off, hl]
  | some evs =>
    cases hf : findCallback cb evs with
    | none =>
      simp only [EventEmitter.off, hl, hf, Option.map_some']
      rw [removeFirst_of_no_match evs cb (findCallback_none_no_match cb evs hf)]
    | some ev =>
      simp only [EventEmitter.off, hl, hf, Option.map_some']
      rw [lookupHook_setHook, if_pos rfl, eraseIdx_indexOf_eq_removeFirst evs cb ev hf]

theorem off_lookup_other (self : EventEmitter) (eventName : String) (cb : Callback)
    (h2 : String) (hne : h2 ≠ eventName) :
    lookupHook (self.off eventName cb).instanceEvents h2
      = lookupHook self.instanceEvents h2 := by
  cases hl : lookupHook self.instanceEvents eventName with
  | none => simp [EventEmitter.off, hl]
  | some evs =>
    cases hf : findCallback cb evs with
    | none => simp [EventEmitter.off, hl, hf]
    | some ev =>
      simp only [EventEmitter.off, hl, hf]
      rw [lookupHook_setHook, if_neg (Ne.symm hne)]

theorem off_noop_unregistered (self : EventEmitter) (eventName : String) (cb : Callback)
    (h : lookupHook self.instanceEvents eventName = none) :
    self.off eventName cb = self := by
  simp [EventEmitter.off, h]

theorem off_noop_no_match (self : EventEmitter) (eventName : String) (cb : Callback)
    (evs : List Event) (h : lookupHook self.instanceEvents eventName = some evs)
    (hm : ∀ ev ∈ evs, ev.callback ≠ cb) :
    self.off eventName cb = self := by
  simp [EventEmitter.off, h, findCallback_eq_none cb evs hm]

theorem off_classEvents_eq (self : EventEmitter) (eventName : String) (cb : Callback) :
    (self.off eventName cb).classEvents = self.classEvents := by
  cases hl : lookupHook self.instanceEvents eventName with
  | none => simp [EventEmitter.off, hl]
  | some evs =>
    cases hf : findCallback cb evs <;> simp [EventEmitter.off, hl, hf]

theorem off_wiredEmitters_eq (self : EventEmitter) (eventName : String) (cb : Callback) :
    (self.off eventName cb).wiredEmitters = self.wiredEmitters := by
  cases hl : lookupHook self.instanceEvents eventName with
  | none => simp [EventEmitter.off, hl]
  | some evs =>
    cases hf : findCallback cb evs <;> simp [EventEmitter.off, hl, hf]

theorem off_ignores_classEvents (ie ce1 ce2 : Events) (wl1 wl2 : List Nat)
    (eventName : String) (cb : Callback) :
    (EventEmitter.off ⟨ie, ce1, wl1⟩ eventName cb).instanceEvents
      = (EventEmitter.off ⟨ie, ce2, wl2⟩ eventName cb).instanceEvents := by
  cases hl : lookupHook ie eventName with
  | none => simp [EventEmitter.off, hl]
  | some evs =>
    cases hf : findCallback cb evs <;> simp [EventEmitter.off, hl, hf]

/-- C4: off removes exactly the first event of instanceEvents[hook] whose
callback equals the given one (first conjunct, with removeFirst the
first-match removal, plus preservation of every other hook); it is the
identity returning self when the hook has no bucket or no event matches;
and it never reads or modifies classEvents (its classEvents and
wiredEmitters are returned untouched, and its result does not depend on
them). -/
theorem off_spec (self : EventEmitter) (eventName : String) (cb : Callback) :
    (lookupHook (self.off eventName cb).instanceEvents eventName
        = (lookupHook self.instanceEvents eventName).map (fun evs => removeFirst evs cb))
    ∧ (∀ h2, h2 ≠ eventName →
        lookupHook (self.off eventName cb).instanceEvents h2
          = lookupHook self.instanceEvents h2)
    ∧ (lookupHook self.instanceEvents eventName = none → self.off eventName cb = self)
    ∧ (∀ evs, lookupHook self.instanceEvents eventName = some evs →
        (∀ ev ∈ evs, ev.callback ≠ cb) → self.off eventName cb = self)
    ∧ ((self.off eventName cb).classEvents = self.classEvents)
    ∧ ((self.off eventName cb).wiredEmitters = self.wiredEmitters)
    ∧ (∀ ce2 wl2,
        (EventEmitter.off ⟨self.instanceEvents, ce2, wl2⟩ eventName cb).instanceEvents
          = (EventEmitter.off ⟨self.instanceEvents, self.classEvents, self.wiredEmitters⟩
              eventName cb).instanceEvents) :=
  ⟨off_lookup_self self eventName cb,
   fun h2 hne => off_lookup_other self eventName cb h2 hne,
   off_noop_unregistered self eventName cb,
   fun evs h hm => off_noop_no_match self eventName cb evs h hm,
   off_classEvents_eq self eventName cb,
   off_wiredEmitters_eq self eventName cb,
   fun ce2 wl2 => off_ignores_classEvents self.instanceEvents ce2 self.classEvents wl2
     self.wiredEmitters eventName cb⟩

theorem off_spec_witness :
    EventEmitter.off ⟨[("h", [⟨"h", Callback.user 1, 0, []⟩])], [], []⟩ "g" (Callback.user 1)
      = ⟨[("h", [⟨"h", Callback.user 1, 0, []⟩])], [], []⟩ :=
  (off_spec ⟨[("h", [⟨"h", Callback.user 1, 0, []⟩])], [], []⟩ "g" (Callback.user 1)).2.2.1
    (by decide)

/-- C9: firing a hook with no bucket on an emitter with no wired emitters
returns the firing emitter and changes nothing: the whole dispatch state
(heap, trace, allocation counter, error flag) is returned untouched, so no
callback is invoked and no emitter state changes. -/
theorem fire_noop (ds : DS) (eid : Nat) (hook : String) (p : Params)
    (hw : (ds.world eid).wiredEmitters = [])
    (hl : lookupHook (ds.world eid).instanceEvents hook = none) :
    fire ds eid hook p = (ds, eid) := by
  simp only [fire, hl, hw, List.length_nil]
  by_cases he : ds.err.isSome <;> simp [wiredOuterLoop, he, hw]

theorem fire_noop_witness :
    fire ⟨fun _ => ⟨[], [], []⟩, [], 0, none⟩ 3 "h" []
      = (⟨fun _ => ⟨[], [], []⟩, [], 0, none⟩, 3) :=
  fire_noop ⟨fun _ => ⟨[], [], []⟩, [], 0, none⟩ 3 "h" [] rfl rfl

/-- C10: during a dispatch of fire on emitter A, an event with a null
callback in a wired emitter's bucket is skipped by the guard and dispatch
continues to the following events with no error, while a null callback in
A's own bucket is unguarded: the call is attempted and the TypeError branch
is taken, aborting the dispatch before any further callback runs. -/
theorem fire_null_guard_asymmetry (hook : String) (c n0 : Nat) (p : Params) :
    ((fire ⟨fun i => if i = 1
          then ⟨[(hook, [⟨hook, Callback.nullCb, 1, []⟩, ⟨hook, Callback.user c, 1, []⟩])], [], []⟩
          else ⟨[], [], [1]⟩, [], n0, none⟩ 0 hook p).1.err = none
      ∧ (fire ⟨fun i => if i = 1
          then ⟨[(hook, [⟨hook, Callback.nullCb, 1, []⟩, ⟨hook, Callback.user c, 1, []⟩])], [], []⟩
          else ⟨[], [], [1]⟩, [], n0, none⟩ 0 hook p).1.trace
        = [⟨Ctx.inst 1, c, n0, p⟩])
    ∧ ((fire ⟨fun _ => ⟨[(hook, [⟨hook, Callback.nullCb, 0, []⟩, ⟨hook, Callback.user c, 0, []⟩])], [], []⟩,
          [], n0, none⟩ 0 hook p).1.err = some JsError.calledNonFunction
      ∧ (fire ⟨fun _ => ⟨[(hook, [⟨hook, Callback.nullCb, 0, []⟩, ⟨hook, Callback.user c, 0, []⟩])], [], []⟩,
          [], n0, none⟩ 0 hook p).1.trace = []) := by
  refine ⟨⟨?_, ?_⟩, ?_, ?_⟩ <;>
    simp [fire, localLoop, wiredOuterLoop, wiredInnerLoop, invoke, setEm]

/-- C3: after registering a callback on emitter e via once, firing the hook
twice in a row invokes the wrapped callback exactly once in total, whether
the two fires happen on e itself (first conjunct) or on an emitter wired to
e (second conjunct): the combined two-fire trace contains exactly one entry
for the callback, with this bound to e (the emitter owning the
registration), and no error occurs. -/
theorem once_fires_once (hook : String) (c u n0 : Nat) (p : Params) :
    ((fire (fire ⟨fun _ => (construct [] 0).once hook (Callback.user c) u 0, [], n0, none⟩
          0 hook p).1 0 hook p).1.trace = [⟨Ctx.inst 0, c, n0, p⟩]
      ∧ (fire (fire ⟨fun _ => (construct [] 0).once hook (Callback.user c) u 0, [], n0, none⟩
          0 hook p).1 0 hook p).1.err = none)
    ∧ ((fire (fire ⟨fun i => if i = 1 then (construct [] 1).wire 0
            else (construct [] 0).once hook (Callback.user c) u 0, [], n0, none⟩
          1 hook p).1 1 hook p).1.trace = [⟨Ctx.inst 0, c, n0, p⟩]
      ∧ (fire (fire ⟨fun i => if i = 1 then (construct [] 1).wire 0
            else (construct [] 0).once hook (Callback.user c) u 0, [], n0, none⟩
          1 hook p).1 1 hook p).1.err = none) := by
  refine ⟨⟨?_, ?_⟩, ?_, ?_⟩ <;>
    simp [construct, EventEmitter.once, EventEmitter.Once, EventEmitter.registerEvent,
      EventEmitter.wire, EventEmitter.off, pushEvent, findCallback, indexOfEvent, setHook,
      setEm, fire, localLoop, wiredOuterLoop, wiredInnerLoop, invoke]

/-- C2: the static Fire does not perform the same dispatch as the instance
fire. At a target (id 0) holding one user callback for hook "h", the
instance call invokes the callback with this bound to the target, but the
first static Fire variant invokes it with this bound to the EventEmitter
class; and on a hook with no registrations and no wired emitters the
instance fire is an error-free no-op while the second static Fire variant
throws a TypeError reading .length of an undefined bucket. -/
theorem static_fire_divergence :
    ((fire ⟨fun _ => ⟨[("h", [⟨"h", Callback.user 5, 0, []⟩])], [], []⟩, [], 0, none⟩
        0 "h" []).1.trace = [⟨Ctx.inst 0, 5, 0, []⟩]
      ∧ (fire ⟨fun _ => ⟨[("h", [⟨"h", Callback.user 5, 0, []⟩])], [], []⟩, [], 0, none⟩
        0 "h" []).1.err = none)
    ∧ ((EventEmitter.Fire ⟨fun _ => ⟨[("h", [⟨"h", Callback.user 5, 0, []⟩])], [], []⟩,
        [], 0, none⟩ "h" 0 []).trace = [⟨Ctx.classCtx, 5, 0, []⟩]
      ∧ (EventEmitter.Fire ⟨fun _ => ⟨[("h", [⟨"h", Callback.user 5, 0, []⟩])], [], []⟩,
        [], 0, none⟩ "h" 0 []).err = none)
    ∧ ((fire ⟨fun _ => ⟨[], [], []⟩, [], 0, none⟩ 0 "h" []).1.trace = []
      ∧ (fire ⟨fun _ => ⟨[], [], []⟩, [], 0, none⟩ 0 "h" []).1.err = none)
    ∧ (EventEmitter.Fire2 ⟨fun _ => ⟨[], [], []⟩, [], 0, none⟩ "h" 0 []).err
        = some JsError.undefinedAccess := by
  decide

theorem lookupHook_append_right (es : Events) (hook : String) (acc : List Event)
    (hk : hook ∉ es.map Prod.fst) :
    lookupHook (es ++ [(hook, acc)]) hook = some acc := by
  induction es with
  | nil => simp
  | cons kv rest ih =>
    obtain ⟨k1, v1⟩ := kv
    simp only [List.map_cons, List.mem_cons, not_or] at hk
    simp only [List.cons_append, lookupHook_cons, if_neg (Ne.symm hk.1)]
    exact ih hk.2

theorem setHook_append_key (es : Events) (hook : String) (acc v : List Event)
    (hk : hook ∉ es.map Prod.fst) :
    setHook (es ++ [(hook, acc)]) hook v = es ++ [(hook, v)] := by
  induction es with
  | nil => simp [setHook]
  | cons kv rest ih =>
    obtain ⟨k1, v1⟩ := kv
    simp only [List.map_cons, List.mem_cons, not_or] at hk
    simp only [List.cons_append, List.append_eq, setHook, if_neg (Ne.symm hk.1)]
    rw [ih hk.2]

theorem pushEvent_present (es : Events) (k : String) (ev : Event) (evs : List Event)
    (h : lookupHook es k = some evs) : pushEvent es k ev = setHook es k (evs ++ [ev]) := by
  unfold pushEvent
  rw [h]

theorem pushEvent_absent (es : Events) (k : String) (ev : Event)
    (h : lookupHook es k = none) : pushEvent es k ev = es ++ [(k, [ev])] := by
  unfold pushEvent
  rw [h]

theorem on_state (es ce : Events) (wl : List Nat) (hook : String) (cb : Callback)
    (sid : Nat) :
    EventEmitter.on (EventEmitter.mk es ce wl) hook cb sid
      = EventEmitter.mk (pushEvent es hook ⟨hook, cb, sid, []⟩) ce wl := rfl

theorem fold_on_bucket (hook : String) (sid : Nat) (ce : Events) (wl : List Nat)
    (vs : List Event) : ∀ (es : Events) (acc : List Event),
    hook ∉ es.map Prod.fst →
    List.foldl (fun em2 ev => EventEmitter.on em2 hook ev.callback sid)
        (EventEmitter.mk (es ++ [(hook, acc)]) ce wl) vs
      = EventEmitter.mk
          (es ++ [(hook, acc ++ vs.map (fun ev => Event.mk hook ev.callback sid []))])
          ce wl := by
  induction vs with
  | nil => intro es acc _; simp
  | cons v rest ih =>
    intro es acc hk
    simp only [List.foldl_cons, on_state]
    rw [pushEvent_present _ _ _ acc (lookupHook_append_right es hook acc hk),
      setHook_append_key es hook acc _ hk,
      ih es (acc ++ [Event.mk hook v.callback sid []]) hk]
    simp

theorem fold_on_new_bucket (hook : String) (sid : Nat) (ce : Events) (wl : List Nat)
    (vs : List Event) (es : Events) (hk : hook ∉ es.map Prod.fst) (hne : vs ≠ []) :
    List.foldl (fun em2 ev => EventEmitter.on em2 hook ev.callback sid)
        (EventEmitter.mk es ce wl) vs
      = EventEmitter.mk
          (es ++ [(hook, vs.map (fun ev => Event.mk hook ev.callback sid []))]) ce wl := by
  cases vs with
  | nil => exact absurd rfl hne
  | cons v rest =>
    simp only [List.foldl_cons, on_state]
    rw [pushEvent_absent _ _ _ (lookupHook_eq_none es hook hk),
      fold_on_bucket hook sid ce wl rest es [⟨hook, v.callback, sid, []⟩] hk]
    simp

theorem construct_fold (sid : Nat) (ce : Events) (wl : List Nat) :
    ∀ (rest : Events) (es : Events),
    (rest.map Prod.fst).Nodup → (∀ kv ∈ rest, kv.2 ≠ []) →
    (∀ k ∈ rest.map Prod.fst, k ∉ es.map Prod.fst) →
    List.foldl
        (fun em kv =>
          List.foldl (fun em2 ev => EventEmitter.on em2 kv.1 ev.callback sid) em kv.2)
        (EventEmitter.mk es ce wl) rest
      = EventEmitter.mk
          (es ++ rest.map
            (fun kv => (kv.1, kv.2.map (fun ev => Event.mk kv.1 ev.callback sid []))))
          ce wl := by
  intro rest
  induction rest with
  | nil => intro es _ _ _; simp
  | cons kv rest2 ih =>
    intro es hnd hne hdisj
    obtain ⟨k, vs⟩ := kv
    simp only [List.map_cons, List.nodup_cons] at hnd
    have hk : k ∉ es.map Prod.fst := hdisj k (by simp)
    have hvs : vs ≠ [] := hne (k, vs) (List.mem_cons_self _ _)
    simp only [List.foldl_cons]
    rw [fold_on_new_bucket k sid ce wl vs es hk hvs]
    rw [ih (es ++ [(k, vs.map (fun ev => Event.mk k ev.callback sid []))]) hnd.2
      (fun kv2 h2 => hne kv2 (List.mem_cons_of_mem _ h2))
      (by
        intro k2 hk2
        simp only [List.map_append, List.map_cons, List.map_nil, List.mem_append,
          List.mem_cons, List.not_mem_nil, not_or]
        refine ⟨(hdisj k2 (List.mem_cons_of_mem _ hk2)), ?_, fun hfalse => hfalse⟩
        intro hkk
        exact hnd.1 (hkk ▸ hk2))]
    simp

theorem construct_eq (ce0 : Events) (sid : Nat)
    (hnd : (ce0.map Prod.fst).Nodup) (hne : ∀ kv ∈ ce0, kv.2 ≠ []) :
    construct ce0 sid
      = EventEmitter.mk
          (ce0.map (fun kv => (kv.1, kv.2.map (fun ev => Event.mk kv.1 ev.callback sid []))))
          ce0 [] := by
  unfold construct
  rw [construct_fold sid ce0 [] ce0 [] hnd hne (by intro k _ hm; simp at hm)]
  simp

theorem lookupHook_map_fresh (ce0 : Events) (sid : Nat) (hook : String) :
    lookupHook
        (ce0.map (fun kv => (kv.1, kv.2.map (fun ev => Event.mk kv.1 ev.callback sid []))))
        hook
      = (lookupHook ce0 hook).map
          (fun evs => evs.map (fun ev => Event.mk hook ev.callback sid [])) := by
  induction ce0 with
  | nil => rfl
  | cons kv rest ih =>
    obtain ⟨k, vs⟩ := kv
    by_cases hk : k = hook
    · subst hk; simp
    · simp [hk, ih]

/-- C7: constructing an emitter over a pre-populated classEvents bucket (the
keys of a JS object are distinct, and registerEvent only ever creates a
class bucket by pushing an event into it, so class buckets are nonempty)
yields: classEvents returned exactly as given (construction never touches
it, third conjunct: wiring starts empty); and for every hook, an
instanceEvents bucket holding one freshly constructed Event per class-level
event, with the same callbacks in the same order (source set to the new
emitter, params empty), produced by replaying them through the normal
instance-level on path, hence sitting in instanceEvents where off operates. -/
theorem construct_replays_class_events (ce0 : Events) (sid : Nat)
    (hnd : (ce0.map Prod.fst).Nodup) (hne : ∀ kv ∈ ce0, kv.2 ≠ []) :
    ((construct ce0 sid).classEvents = ce0)
    ∧ (∀ hook, lookupHook (construct ce0 sid).instanceEvents hook
        = (lookupHook ce0 hook).map
            (fun evs => evs.map (fun ev => Event.mk hook ev.callback sid [])))
    ∧ ((construct ce0 sid).wiredEmitters = []) := by
  rw [construct_eq ce0 sid hnd hne]
  exact ⟨rfl, fun hook => lookupHook_map_fresh ce0 sid hook, rfl⟩

theorem construct_replays_class_events_witness :
    ((construct [("a", [⟨"a", Callback.user 3, 9, []⟩])] 4).classEvents
        = [("a", [⟨"a", Callback.user 3, 9, []⟩])])
    ∧ (∀ hook, lookupHook (construct [("a", [⟨"a", Callback.user 3, 9, []⟩])] 4).instanceEvents
          hook
        = (lookupHook [("a", [⟨"a", Callback.user 3, 9, []⟩])] hook).map
            (fun evs => evs.map (fun ev => Event.mk hook ev.callback 4 [])))
    ∧ ((construct [("a", [⟨"a", Callback.user 3, 9, []⟩])] 4).wiredEmitters = []) :=
  construct_replays_class_events [("a", [⟨"a", Callback.user 3, 9, []⟩])] 4
    (by decide) (by decide)

theorem invoke_user (ds : DS) (i : Nat) (ctx : Ctx) (a : Nat) (args : Params) :
    invoke ds (Callback.user i) ctx a args
      = ⟨ds.world, ds.trace ++ [⟨ctx, i, a, args⟩], ds.nextObj, ds.err⟩ := rfl

theorem localLoop_user (A : Nat) (hook : String) (p : Params) :
    ∀ (r : Nat) (i : Nat) (w : World) (tr : List TraceEntry) (n : Nat) (evs : List Event),
    lookupHook (w A).instanceEvents hook = some evs →
    i + r = evs.length →
    (∀ ev ∈ evs, isUser ev.callback = true) →
    localLoop A hook p i r ⟨w, tr, n, none⟩
      = ⟨w, tr ++ expectedEntries A p n (evs.drop i), n + r, none⟩ := by
  intro r
  induction r with
  | zero =>
    intro i w tr n evs hl hi hu
    have hd : evs.drop i = [] := List.drop_eq_nil_of_le (by omega)
    simp [localLoop, hd, expectedEntries]
  | succ r ih =>
    intro i w tr n evs hl hi hu
    have hilt : i < evs.length := by omega
    have hget : evs.get? i = some evs[i] := by
      simp [List.get?_eq_getElem?, List.getElem?_eq_getElem hilt]
    obtain ⟨id, hcb⟩ : ∃ id, evs[i].callback = Callback.user id := by
      have hiu := hu evs[i] (List.getElem_mem hilt)
      cases hc : evs[i].callback <;> simp [isUser, hc] at hiu ⊢
    simp only [localLoop, Option.isSome_none, Bool.false_eq_true, if_false, hl, hget, hcb,
      invoke_user]
    rw [if_neg (by simp)]
    have := ih (i + 1) w (tr ++ [⟨Ctx.inst A, id, n, p⟩]) (n + 1) evs hl (by omega) hu
    simp only at this
    rw [this]
    have htr : (tr ++ [⟨Ctx.inst A, id, n, p⟩]) ++ expectedEntries A p (n + 1) (evs.drop (i + 1))
        = tr ++ expectedEntries A p n (evs.drop i) := by
      rw [List.drop_eq_getElem_cons hilt, expectedEntries, hcb]
      simp [userId, List.append_assoc]
    have hn : n + 1 + r = n + (r + 1) := by omega
    rw [htr, hn]

theorem wiredInnerLoop_user (wId : Nat) (hook : String) (p : Params) :
    ∀ (f : Nat) (i : Nat) (w : World) (tr : List TraceEntry) (n : Nat) (evs : List Event),
    lookupHook (w wId).instanceEvents hook = some evs →
    evs.length ≤ i + f →
    (∀ ev ∈ evs, isUser ev.callback = true) →
    wiredInnerLoop wId hook p i f ⟨w, tr, n, none⟩
      = ⟨w, tr ++ expectedEntries wId p n (evs.drop i), n + (evs.length - i), none⟩ := by
  intro f
  induction f with
  | zero =>
    intro i w tr n evs hl hi hu
    have hd : evs.drop i = [] := List.drop_eq_nil_of_le (by omega)
    have hz : evs.length - i = 0 := by omega
    simp [wiredInnerLoop, hd, hz, expectedEntries]
  | succ f ih =>
    intro i w tr n evs hl hi hu
    by_cases hilt : i < evs.length
    · have hget : evs.get? i = some evs[i] := by
        simp [List.get?_eq_getElem?, List.getElem?_eq_getElem hilt]
      obtain ⟨id, hcb⟩ : ∃ id, evs[i].callback = Callback.user id := by
        have hiu := hu evs[i] (List.getElem_mem hilt)
        cases hc : evs[i].callback <;> simp [isUser, hc] at hiu ⊢
      simp only [wiredInnerLoop, Option.isSome_none, Bool.false_eq_true, if_false, hl, hget,
        hcb, invoke_user]
      rw [if_neg (by simp)]
      have := ih (i + 1) w (tr ++ [⟨Ctx.inst wId, id, n, p⟩]) (n + 1) evs hl (by omega) hu
      simp only at this
      rw [this]
      have htr : (tr ++ [⟨Ctx.inst wId, id, n, p⟩])
            ++ expectedEntries wId p (n + 1) (evs.drop (i + 1))
          = tr ++ expectedEntries wId p n (evs.drop i) := by
        rw [List.drop_eq_getElem_cons hilt, expectedEntries, hcb]
        simp [userId, List.append_assoc]
      have hn : n + 1 + (evs.length - (i + 1)) = n + (evs.length - i) := by omega
      rw [htr, hn]
    · have hget : evs.get? i = none := List.get?_eq_none.mpr (by omega)
      have hget2 : evs[i]? = none := by
        rw [← List.get?_eq_getElem?]
        exact hget
      have hd : evs.drop i = [] := List.drop_eq_nil_of_le (by omega)
      have hz : evs.length - i = 0 := by omega
      simp [wiredInnerLoop, hl, hget, hget2, hd, hz, expectedEntries]

theorem wiredOuterLoop_user (A : Nat) (hook : String) (p : Params) :
    ∀ (f : Nat) (w0 : Nat) (w : World) (tr : List TraceEntry) (n : Nat),
    (w A).wiredEmitters.length ≤ w0 + f →
    (∀ wid ∈ (w A).wiredEmitters, userOnlyAt w wid hook) →
    wiredOuterLoop A hook p w0 f ⟨w, tr, n, none⟩
      = ⟨w, tr ++ wiredExpected w hook p n ((w A).wiredEmitters.drop w0),
          n + totalWired w hook ((w A).wiredEmitters.drop w0), none⟩ := by
  intro f
  induction f with
  | zero =>
    intro w0 w tr n hb hu
    have hd : (w A).wiredEmitters.drop w0 = [] := List.drop_eq_nil_of_le (by omega)
    simp [wiredOuterLoop, hd, wiredExpected, totalWired]
  | succ f ih =>
    intro w0 w tr n hb hu
    by_cases hlt : w0 < (w A).wiredEmitters.length
    · have hget : (w A).wiredEmitters.get? w0 = some (w A).wiredEmitters[w0] := by
        simp [List.get?_eq_getElem?, List.getElem?_eq_getElem hlt]
      have hmem : (w A).wiredEmitters[w0] ∈ (w A).wiredEmitters := List.getElem_mem hlt
      have hdrop := List.drop_eq_getElem_cons hlt
      cases hl : lookupHook (w ((w A).wiredEmitters[w0])).instanceEvents hook with
      | none =>
        have hhe : hookEvents w ((w A).wiredEmitters[w0]) hook = [] := by
          simp [hookEvents, hl]
        simp only [wiredOuterLoop, Option.isSome_none, Bool.false_eq_true, if_false, hget, hl]
        rw [ih (w0 + 1) w tr n (by omega) hu]
        have htr : wiredExpected w hook p n ((w A).wiredEmitters.drop (w0 + 1))
            = wiredExpected w hook p n ((w A).wiredEmitters.drop w0) := by
          rw [hdrop, wiredExpected, hhe]
          simp [expectedEntries]
        have hn : totalWired w hook ((w A).wiredEmitters.drop (w0 + 1))
            = totalWired w hook ((w A).wiredEmitters.drop w0) := by
          rw [hdrop, totalWired, hhe]
          simp
        rw [htr, hn]
      | some evs =>
        have hhe : hookEvents w ((w A).wiredEmitters[w0]) hook = evs := by
          simp [hookEvents, hl]
        have huser : ∀ ev ∈ evs, isUser ev.callback = true := by
          have := hu _ hmem
          simpa [userOnlyAt, hhe] using this
        simp only [wiredOuterLoop, Option.isSome_none, Bool.false_eq_true, if_false, hget, hl]
        rw [wiredInnerLoop_user _ hook p (evs.length + 1) 0 w tr n evs hl (by omega) huser]
        simp only [List.drop_zero, Nat.sub_zero]
        rw [ih (w0 + 1) w (tr ++ expectedEntries ((w A).wiredEmitters[w0]) p n evs)
          (n + evs.length) (by omega) hu]
        have htr : (tr ++ expectedEntries ((w A).wiredEmitters[w0]) p n evs)
              ++ wiredExpected w hook p (n + evs.length) ((w A).wiredEmitters.drop (w0 + 1))
            = tr ++ wiredExpected w hook p n ((w A).wiredEmitters.drop w0) := by
          rw [hdrop, wiredExpected, hhe]
          simp [List.append_assoc]
        have hn : n + evs.length + totalWired w hook ((w A).wiredEmitters.drop (w0 + 1))
            = n + totalWired w hook ((w A).wiredEmitters.drop w0) := by
          rw [hdrop, totalWired, hhe]
          omega
        rw [htr, hn]
    · have hget : (w A).wiredEmitters.get? w0 = none := List.get?_eq_none.mpr (by omega)
      have hget2 : (w A).wiredEmitters[w0]? = none := by
        rw [← List.get?_eq_getElem?]
        exact hget
      have hd : (w A).wiredEmitters.drop w0 = [] := List.drop_eq_nil_of_le (by omega)
      simp [wiredOuterLoop, hget, hget2, hd, wiredExpected, totalWired]

theorem fire_user_trace (w : World) (tr : List TraceEntry) (n : Nat) (A : Nat)
    (hook : String) (p : Params)
    (hA : userOnlyAt w A hook)
    (hW : ∀ wid ∈ (w A).wiredEmitters, userOnlyAt w wid hook) :
    fire ⟨w, tr, n, none⟩ A hook p
      = (⟨w,
          tr ++ expectedEntries A p n (hookEvents w A hook)
            ++ wiredExpected w hook p (n + (hookEvents w A hook).length)
                (w A).wiredEmitters,
          n + (hookEvents w A hook).length + totalWired w hook (w A).wiredEmitters,
          none⟩, A) := by
  cases hl : lookupHook (w A).instanceEvents hook with
  | none =>
    have hhe : hookEvents w A hook = [] := by simp [hookEvents, hl]
    simp only [fire, hl]
    rw [wiredOuterLoop_user A hook p ((w A).wiredEmitters.length + 1) 0 w tr n
      (by omega) hW]
    simp [hhe, expectedEntries, List.drop_zero]
  | some evs =>
    have hhe : hookEvents w A hook = evs := by simp [hookEvents, hl]
    have huser : ∀ ev ∈ evs, isUser ev.callback = true := by
      simpa [userOnlyAt, hhe] using hA
    simp only [fire, hl]
    rw [localLoop_user A hook p evs.length 0 w tr n evs hl (by omega) huser]
    simp only [List.drop_zero]
    rw [wiredOuterLoop_user A hook p ((w A).wiredEmitters.length + 1) 0 w
      (tr ++ expectedEntries A p n evs) (n + evs.length) (by omega) hW]
    simp [hhe, List.append_assoc]

theorem expectedEntries_ctx (ctxId : Nat) (p : Params) (start : Nat) (evs : List Event) :
    ∀ en ∈ expectedEntries ctxId p start evs, en.ctx = Ctx.inst ctxId := by
  induction evs generalizing start with
  | nil => intro en h; simp [expectedEntries] at h
  | cons ev rest ih =>
    intro en h
    rw [expectedEntries] at h
    rcases List.mem_cons.mp h with h1 | h1
    · rw [h1]
    · exact ih (start + 1) en h1

theorem wiredExpected_ctx (w : World) (hook : String) (p : Params) (wl : List Nat) :
    ∀ (start : Nat), ∀ en ∈ wiredExpected w hook p start wl,
    ∃ wid ∈ wl, en.ctx = Ctx.inst wid := by
  induction wl with
  | nil => intro start en h; simp [wiredExpected] at h
  | cons wid rest ih =>
    intro start en h
    rw [wiredExpected] at h
    rcases List.mem_append.mp h with h1 | h1
    · exact ⟨wid, List.mem_cons_self _ _, expectedEntries_ctx wid p _ _ en h1⟩
    · obtain ⟨wid2, hm, hc⟩ := ih _ en h1
      exact ⟨wid2, List.mem_cons_of_mem _ hm, hc⟩

/-- C5: when the firing emitter A and its wired emitters hold only plain
user callbacks for the hook (so dispatch does not mutate the heap), firing
the hook on A produces exactly one trace entry per event of A's own bucket
(invocation context A) followed, in wiring order, by one entry per event of
each wired emitter's bucket (invocation context that wired emitter) — and
nothing else: every entry's context is A or a member of A.wiredEmitters, so
emitters wired to A's wired emitters are not visited (wiring is not
transitive) and an emitter that has wired A is not invoked by A's fire
(wiring is directional). -/
theorem fire_dispatch_exactly (w : World) (n : Nat) (A : Nat) (hook : String) (p : Params)
    (hA : userOnlyAt w A hook)
    (hW : ∀ wid ∈ (w A).wiredEmitters, userOnlyAt w wid hook) :
    ((fire ⟨w, [], n, none⟩ A hook p).1.trace
        = expectedEntries A p n (hookEvents w A hook)
            ++ wiredExpected w hook p (n + (hookEvents w A hook).length)
                (w A).wiredEmitters)
    ∧ (∀ en ∈ (fire ⟨w, [], n, none⟩ A hook p).1.trace,
        en.ctx = Ctx.inst A ∨ ∃ wid ∈ (w A).wiredEmitters, en.ctx = Ctx.inst wid) := by
  rw [fire_user_trace w [] n A hook p hA hW]
  constructor
  · simp
  · intro en h
    simp only [List.nil_append, List.mem_append] at h
    rcases h with h1 | h1
    · exact Or.inl (expectedEntries_ctx A p _ _ en h1)
    · exact Or.inr (wiredExpected_ctx w hook p _ _ en h1)

theorem fire_dispatch_exactly_witness :
    ((fire ⟨fun i => if i = 0 then ⟨[("h", [⟨"h", Callback.user 10, 0, []⟩])], [], [1, 2]⟩
          else if i = 1 then
            ⟨[("h", [⟨"h", Callback.user 11, 1, []⟩, ⟨"h", Callback.user 12, 1, []⟩])], [], [3]⟩
          else if i = 2 then ⟨[], [], []⟩
          else ⟨[("h", [⟨"h", Callback.user 13, 3, []⟩])], [], [0]⟩, [], 0, none⟩
        0 "h" []).1.trace
      = expectedEntries 0 [] 0
          (hookEvents (fun i => if i = 0 then ⟨[("h", [⟨"h", Callback.user 10, 0, []⟩])], [], [1, 2]⟩
            else if i = 1 then
              ⟨[("h", [⟨"h", Callback.user 11, 1, []⟩, ⟨"h", Callback.user 12, 1, []⟩])], [], [3]⟩
            else if i = 2 then ⟨[], [], []⟩
            else ⟨[("h", [⟨"h", Callback.user 13, 3, []⟩])], [], [0]⟩) 0 "h")
        ++ wiredExpected (fun i => if i = 0 then ⟨[("h", [⟨"h", Callback.user 10, 0, []⟩])], [], [1, 2]⟩
            else if i = 1 then
              ⟨[("h", [⟨"h", Callback.user 11, 1, []⟩, ⟨"h", Callback.user 12, 1, []⟩])], [], [3]⟩
            else if i = 2 then ⟨[], [], []⟩
            else ⟨[("h", [⟨"h", Callback.user 13, 3, []⟩])], [], [0]⟩) "h" []
            (0 + (hookEvents (fun i => if i = 0 then ⟨[("h", [⟨"h", Callback.user 10, 0, []⟩])], [], [1, 2]⟩
              else if i = 1 then
                ⟨[("h", [⟨"h", Callback.user 11, 1, []⟩, ⟨"h", Callback.user 12, 1, []⟩])], [], [3]⟩
              else if i = 2 then ⟨[], [], []⟩
              else ⟨[("h", [⟨"h", Callback.user 13, 3, []⟩])], [], [0]⟩) 0 "h").length)
            ((if (0 : Nat) = 0 then (⟨[("h", [⟨"h", Callback.user 10, 0, []⟩])], [], [1, 2]⟩ : EventEmitter)
              else if (0 : Nat) = 1 then
                ⟨[("h", [⟨"h", Callback.user 11, 1, []⟩, ⟨"h", Callback.user 12, 1, []⟩])], [], [3]⟩
              else if (0 : Nat) = 2 then ⟨[], [], []⟩
              else ⟨[("h", [⟨"h", Callback.user 13, 3, []⟩])], [], [0]⟩).wiredEmitters))
    ∧ (∀ en ∈ (fire ⟨fun i => if i = 0 then ⟨[("h", [⟨"h", Callback.user 10, 0, []⟩])], [], [1, 2]⟩
          else if i = 1 then
            ⟨[("h", [⟨"h", Callback.user 11, 1, []⟩, ⟨"h", Callback.user 12, 1, []⟩])], [], [3]⟩
          else if i = 2 then ⟨[], [], []⟩
          else ⟨[("h", [⟨"h", Callback.user 13, 3, []⟩])], [], [0]⟩, [], 0, none⟩
        0 "h" []).1.trace,
        en.ctx = Ctx.inst 0
          ∨ ∃ wid ∈ ((if (0 : Nat) = 0 then (⟨[("h", [⟨"h", Callback.user 10, 0, []⟩])], [], [1, 2]⟩ : EventEmitter)
              else if (0 : Nat) = 1 then
                ⟨[("h", [⟨"h", Callback.user 11, 1, []⟩, ⟨"h", Callback.user 12, 1, []⟩])], [], [3]⟩
              else if (0 : Nat) = 2 then ⟨[], [], []⟩
              else ⟨[("h", [⟨"h", Callback.user 13, 3, []⟩])], [], [0]⟩).wiredEmitters),
            en.ctx = Ctx.inst wid) :=
  fire_dispatch_exactly
    (fun i => if i = 0 then ⟨[("h", [⟨"h", Callback.user 10, 0, []⟩])], [], [1, 2]⟩
      else if i = 1 then
        ⟨[("h", [⟨"h", Callback.user 11, 1, []⟩, ⟨"h", Callback.user 12, 1, []⟩])], [], [3]⟩
      else if i = 2 then ⟨[], [], []⟩
      else ⟨[("h", [⟨"h", Callback.user 13, 3, []⟩])], [], [0]⟩)
    0 0 "h" [] (by decide) (by decide)

theorem lookupHook_append (es es2 : Events) (h : String) :
    lookupHook (es ++ es2) h
      = match lookupHook es h with
        | some v => some v
        | none => lookupHook es2 h := by
  induction es with
  | nil => simp
  | cons kv rest ih =>
    obtain ⟨k, v⟩ := kv
    by_cases hk : k = h
    · simp [hk]
    · simp [hk, ih]

theorem lookupHook_none_not_mem (es : Events) (h : String)
    (hl : lookupHook es h = none) : h ∉ es.map Prod.fst := by
  induction es with
  | nil => simp
  | cons kv rest ih =>
    obtain ⟨k, v⟩ := kv
    by_cases hk : k = h
    · simp [hk] at hl
    · simp only [lookupHook_cons, if_neg hk] at hl
      simp only [List.map_cons, List.mem_cons, not_or]
      exact ⟨fun hh => hk hh.symm, ih hl⟩

theorem on_lookup_self (em : EventEmitter) (hook : String) (cb : Callback) (sid : Nat) :
    lookupHook (em.on hook cb sid).instanceEvents hook
      = some ((lookupHook em.instanceEvents hook).getD [] ++ [⟨hook, cb, sid, []⟩]) := by
  show lookupHook (pushEvent em.instanceEvents hook ⟨hook, cb, sid, []⟩) hook = _
  cases hl : lookupHook em.instanceEvents hook with
  | none =>
    rw [pushEvent_absent _ _ _ hl,
      lookupHook_append_right _ _ _ (lookupHook_none_not_mem _ _ hl)]
    simp
  | some evs =>
    rw [pushEvent_present _ _ _ evs hl, lookupHook_setHook, if_pos rfl]
    simp

theorem on_lookup_other (em : EventEmitter) (hook : String) (cb : Callback) (sid : Nat)
    (h2 : String) (hne : h2 ≠ hook) :
    lookupHook (em.on hook cb sid).instanceEvents h2
      = lookupHook em.instanceEvents h2 := by
  show lookupHook (pushEvent em.instanceEvents hook ⟨hook, cb, sid, []⟩) h2 = _
  cases hl : lookupHook em.instanceEvents hook with
  | none =>
    rw [pushEvent_absent _ _ _ hl, lookupHook_append]
    cases hr : lookupHook em.instanceEvents h2 with
    | none => simp [Ne.symm hne]
    | some v => simp
  | some evs =>
    rw [pushEvent_present _ _ _ evs hl, lookupHook_setHook, if_neg (Ne.symm hne)]

theorem removeFirst_sublist (evs : List Event) (cb : Callback) :
    (removeFirst evs cb).Sublist evs := by
  induction evs with
  | nil => simp [removeFirst]
  | cons ev rest ih =>
    by_cases he : ev.callback = cb
    · simp only [removeFirst, if_pos he]
      exact List.sublist_cons_of_sublist ev (List.Sublist.refl rest)
    · simp only [removeFirst, if_neg he]
      exact List.Sublist.cons₂ ev ih

/-- C6: registration order is preserved and defines dispatch order. First
two conjuncts: every registration through on appends the new Event at the
end of the hook's sequence and leaves every other hook unchanged. Third and
fourth conjuncts: off removes exactly the first callback match, and the
removal result is a sublist of the original sequence (the relative order of
the remaining events is preserved). Last conjunct: when the dispatched
buckets hold plain user callbacks, fire invokes A's sequence and then each
wired emitter's sequence exactly in sequence order (expectedEntries
enumerates a bucket front to back). -/
theorem registration_order_defines_dispatch (em : EventEmitter) (hook : String)
    (cb : Callback) (sid : Nat) (w : World) (n : Nat) (A : Nat) (p : Params)
    (hA : userOnlyAt w A hook)
    (hW : ∀ wid ∈ (w A).wiredEmitters, userOnlyAt w wid hook) :
    (lookupHook (em.on hook cb sid).instanceEvents hook
        = some ((lookupHook em.instanceEvents hook).getD [] ++ [⟨hook, cb, sid, []⟩]))
    ∧ (∀ h2, h2 ≠ hook →
        lookupHook (em.on hook cb sid).instanceEvents h2
          = lookupHook em.instanceEvents h2)
    ∧ (lookupHook (em.off hook cb).instanceEvents hook
        = (lookupHook em.instanceEvents hook).map (fun evs => removeFirst evs cb))
    ∧ ((removeFirst ((lookupHook em.instanceEvents hook).getD []) cb).Sublist
        ((lookupHook em.instanceEvents hook).getD []))
    ∧ ((fire ⟨w, [], n, none⟩ A hook p).1.trace
        = expectedEntries A p n (hookEvents w A hook)
            ++ wiredExpected w hook p (n + (hookEvents w A hook).length)
                (w A).wiredEmitters) := by
  refine ⟨on_lookup_self em hook cb sid,
    fun h2 hne => on_lookup_other em hook cb sid h2 hne,
    off_lookup_self em hook cb,
    removeFirst_sublist _ cb, ?_⟩
  rw [fire_user_trace w [] n A hook p hA hW]
  simp

theorem registration_order_defines_dispatch_witness :
    (lookupHook ((EventEmitter.mk [("h", [⟨"h", Callback.user 1, 0, []⟩])] [] []).on
          "h" (Callback.user 2) 0).instanceEvents "h"
        = some ((lookupHook [("h", [⟨"h", Callback.user 1, 0, []⟩])] "h").getD []
            ++ [⟨"h", Callback.user 2, 0, []⟩]))
    ∧ (∀ h2, h2 ≠ "h" →
        lookupHook ((EventEmitter.mk [("h", [⟨"h", Callback.user 1, 0, []⟩])] [] []).on
            "h" (Callback.user 2) 0).instanceEvents h2
          = lookupHook [("h", [⟨"h", Callback.user 1, 0, []⟩])] h2)
    ∧ (lookupHook ((EventEmitter.mk [("h", [⟨"h", Callback.user 1, 0, []⟩])] [] []).off
          "h" (Callback.user 2)).instanceEvents "h"
        = (lookupHook [("h", [⟨"h", Callback.user 1, 0, []⟩])] "h").map
            (fun evs => removeFirst evs (Callback.user 2)))
    ∧ ((removeFirst ((lookupHook [("h", [⟨"h", Callback.user 1, 0, []⟩])] "h").getD [])
          (Callback.user 2)).Sublist
        ((lookupHook [("h", [⟨"h", Callback.user 1, 0, []⟩])] "h").getD []))
    ∧ ((fire ⟨fun _ => ⟨[("h", [⟨"h", Callback.user 1, 0, []⟩])], [], []⟩, [], 0, none⟩
          0 "h" []).1.trace
        = expectedEntries 0 [] 0
            (hookEvents (fun _ => ⟨[("h", [⟨"h", Callback.user 1, 0, []⟩])], [], []⟩) 0 "h")
            ++ wiredExpected (fun _ => ⟨[("h", [⟨"h", Callback.user 1, 0, []⟩])], [], []⟩)
                "h" []
                (0 + (hookEvents (fun _ => ⟨[("h", [⟨"h", Callback.user 1, 0, []⟩])], [], []⟩)
                    0 "h").length)
                ((⟨[("h", [⟨"h", Callback.user 1, 0, []⟩])], [], []⟩ : EventEmitter).wiredEmitters)) :=
  registration_order_defines_dispatch
    (EventEmitter.mk [("h", [⟨"h", Callback.user 1, 0, []⟩])] [] []) "h" (Callback.user 2) 0
    (fun _ => ⟨[("h", [⟨"h", Callback.user 1, 0, []⟩])], [], []⟩) 0 0 []
    (by decide) (by decide)

theorem spanTrace_nil (n0 n1 : Nat) (p : Params) : SpanTrace n0 n1 p [] :=
  ⟨by simp, by simp⟩

theorem spanTrace_append (n0 n1 n2 : Nat) (p : Params) (l1 l2 : List TraceEntry)
    (hn01 : n0 ≤ n1) (hn12 : n1 ≤ n2)
    (h1 : SpanTrace n0 n1 p l1) (h2 : SpanTrace n1 n2 p l2) :
    SpanTrace n0 n2 p (l1 ++ l2) := by
  obtain ⟨b1, p1⟩ := h1
  obtain ⟨b2, p2⟩ := h2
  refine ⟨?_, ?_⟩
  · intro en hen
    rcases List.mem_append.mp hen with h | h
    · obtain ⟨⟨ha, hb⟩, hc⟩ := b1 en h
      exact ⟨⟨ha, by omega⟩, hc⟩
    · obtain ⟨⟨ha, hb⟩, hc⟩ := b2 en h
      exact ⟨⟨by omega, hb⟩, hc⟩
  · rw [List.pairwise_append]
    refine ⟨p1, p2, ?_⟩
    intro a ha b hb
    obtain ⟨⟨ha1, ha2⟩, _⟩ := b1 a ha
    obtain ⟨⟨hb1, hb2⟩, _⟩ := b2 b hb
    omega

theorem spanTrace_of_le_one (n : Nat) (p : Params) (l : List TraceEntry)
    (hlen : l.length ≤ 1) (hall : ∀ en ∈ l, en.argId = n ∧ en.contents = p) :
    SpanTrace n (n + 1) p l := by
  cases l with
  | nil => exact spanTrace_nil n (n + 1) p
  | cons en rest =>
    cases rest with
    | nil =>
      obtain ⟨h1, h2⟩ := hall en (List.mem_cons_self _ _)
      refine ⟨?_, by simp⟩
      intro e he
      simp only [List.mem_singleton] at he
      subst he
      exact ⟨⟨by omega, by omega⟩, h2⟩
    | cons en2 rest2 => simp at hlen

theorem invoke_span (cb : Callback) :
    ∀ (ds : DS) (ctx : Ctx) (a : Nat) (args : Params),
    ∃ l, (invoke ds cb ctx a args).trace = ds.trace ++ l
      ∧ l.length ≤ 1
      ∧ (∀ en ∈ l, en.argId = a ∧ en.contents = args)
      ∧ (invoke ds cb ctx a args).nextObj = ds.nextObj := by
  induction cb with
  | user i =>
    intro ds ctx a args
    exact ⟨[⟨ctx, i, a, args⟩], rfl, by simp, by simp, rfl⟩
  | nullCb =>
    intro ds ctx a args
    exact ⟨[], by simp [invoke], by simp, by simp, rfl⟩
  | wrapper hook uid inner ih =>
    intro ds ctx a args
    obtain ⟨l, h1, h2, h3, h4⟩ := ih ds ctx a args
    by_cases he : (invoke ds inner ctx a args).err.isSome
    · refine ⟨l, ?_, h2, h3, ?_⟩ <;> simp [invoke, he, h1, h4]
    · cases ctx with
      | inst eid =>
        refine ⟨l, ?_, h2, h3, ?_⟩ <;> simp [invoke, he, h1, h4]
      | classCtx =>
        refine ⟨l, ?_, h2, h3, ?_⟩ <;> simp [invoke, he, h1, h4]

theorem localLoop_span (A : Nat) (hook : String) (p : Params) :
    ∀ (r i : Nat) (ds : DS),
    ∃ l, (localLoop A hook p i r ds).trace = ds.trace ++ l
      ∧ SpanTrace ds.nextObj (localLoop A hook p i r ds).nextObj p l
      ∧ ds.nextObj ≤ (localLoop A hook p i r ds).nextObj := by
  intro r
  induction r with
  | zero =>
    intro i ds
    have heq : localLoop A hook p i 0 ds = ds := by simp [localLoop]
    rw [heq]
    exact ⟨[], by simp, spanTrace_nil _ _ _, le_refl _⟩
  | succ r ih =>
    intro i ds
    by_cases he : ds.err.isSome
    · have heq : localLoop A hook p i (r + 1) ds = ds := by simp [localLoop, he]
      rw [heq]
      exact ⟨[], by simp, spanTrace_nil _ _ _, le_refl _⟩
    · cases hl : lookupHook (ds.world A).instanceEvents hook with
      | none =>
        have heq : localLoop A hook p i (r + 1) ds
            = { ds with err := some JsError.undefinedAccess } := by
          simp [localLoop, he, hl]
        rw [heq]
        exact ⟨[], by simp, spanTrace_nil _ _ _, le_refl _⟩
      | some evs =>
        cases hg : evs.get? i with
        | none =>
          have heq : localLoop A hook p i (r + 1) ds
              = { ds with err := some JsError.undefinedAccess } := by
            rw [List.get?_eq_getElem?] at hg
            simp [localLoop, he, hl, hg]
          rw [heq]
          exact ⟨[], by simp, spanTrace_nil _ _ _, le_refl _⟩
        | some ev =>
          by_cases hnull : ev.callback = Callback.nullCb
          · have heq : localLoop A hook p i (r + 1) ds
                = { ds with err := some JsError.calledNonFunction } := by
              rw [List.get?_eq_getElem?] at hg
              simp [localLoop, he, hl, hg, hnull]
            rw [heq]
            exact ⟨[], by simp, spanTrace_nil _ _ _, le_refl _⟩
          · have heq : localLoop A hook p i (r + 1) ds
                = localLoop A hook p (i + 1) r
                    (invoke { ds with nextObj := ds.nextObj + 1 } ev.callback
                      (Ctx.inst A) ds.nextObj p) := by
              rw [List.get?_eq_getElem?] at hg
              simp [localLoop, he, hl, hg, hnull]
            rw [heq]
            obtain ⟨li, hi1, hi2, hi3, hi4⟩ :=
              invoke_span ev.callback { ds with nextObj := ds.nextObj + 1 }
                (Ctx.inst A) ds.nextObj p
            obtain ⟨lr, hr1, hr2, hr3⟩ :=
              ih (i + 1) (invoke { ds with nextObj := ds.nextObj + 1 } ev.callback
                (Ctx.inst A) ds.nextObj p)
            simp only at hi1 hi4
            rw [hi4] at hr2 hr3
            refine ⟨li ++ lr, ?_, ?_, ?_⟩
            · rw [hr1, hi1]
              simp
            · exact spanTrace_append _ (ds.nextObj + 1) _ p _ _ (by omega) hr3
                (spanTrace_of_le_one _ _ _ hi2 hi3) hr2
            · omega

theorem wiredInnerLoop_span (wId : Nat) (hook : String) (p : Params) :
    ∀ (f i : Nat) (ds : DS),
    ∃ l, (wiredInnerLoop wId hook p i f ds).trace = ds.trace ++ l
      ∧ SpanTrace ds.nextObj (wiredInnerLoop wId hook p i f ds).nextObj p l
      ∧ ds.nextObj ≤ (wiredInnerLoop wId hook p i f ds).nextObj := by
  intro f
  induction f with
  | zero =>
    intro i ds
    have heq : wiredInnerLoop wId hook p i 0 ds = ds := by simp [wiredInnerLoop]
    rw [heq]
    exact ⟨[], by simp, spanTrace_nil _ _ _, le_refl _⟩
  | succ f ih =>
    intro i ds
    by_cases he : ds.err.isSome
    · have heq : wiredInnerLoop wId hook p i (f + 1) ds = ds := by
        simp [wiredInnerLoop, he]
      rw [heq]
      exact ⟨[], by simp, spanTrace_nil _ _ _, le_refl _⟩
    · cases hl : lookupHook (ds.world wId).instanceEvents hook with
      | none =>
        have heq : wiredInnerLoop wId hook p i (f + 1) ds
            = { ds with err := some JsError.undefinedAccess } := by
          simp [wiredInnerLoop, he, hl]
        rw [heq]
        exact ⟨[], by simp, spanTrace_nil _ _ _, le_refl _⟩
      | some evs =>
        cases hg : evs.get? i with
        | none =>
          have heq : wiredInnerLoop wId hook p i (f + 1) ds = ds := by
            rw [List.get?_eq_getElem?] at hg
            simp [wiredInnerLoop, he, hl, hg]
          rw [heq]
          exact ⟨[], by simp, spanTrace_nil _ _ _, le_refl _⟩
        | some ev =>
          by_cases hnull : ev.callback = Callback.nullCb
          · have heq : wiredInnerLoop wId hook p i (f + 1) ds
                = wiredInnerLoop wId hook p (i + 1) f ds := by
              rw [List.get?_eq_getElem?] at hg
              simp [wiredInnerLoop, he, hl, hg, hnull]
            rw [heq]
            exact ih (i + 1) ds
          · have heq : wiredInnerLoop wId hook p i (f + 1) ds
                = wiredInnerLoop wId hook p (i + 1) f
                    (invoke { ds with nextObj := ds.nextObj + 1 } ev.callback
                      (Ctx.inst wId) ds.nextObj p) := by
              rw [List.get?_eq_getElem?] at hg
              simp [wiredInnerLoop, he, hl, hg, hnull]
            rw [heq]
            obtain ⟨li, hi1, hi2, hi3, hi4⟩ :=
              invoke_span ev.callback { ds with nextObj := ds.nextObj + 1 }
                (Ctx.inst wId) ds.nextObj p
            obtain ⟨lr, hr1, hr2, hr3⟩ :=
              ih (i + 1) (invoke { ds with nextObj := ds.nextObj + 1 } ev.callback
                (Ctx.inst wId) ds.nextObj p)
            simp only at hi1 hi4
            rw [hi4] at hr2 hr3
            refine ⟨li ++ lr, ?_, ?_, ?_⟩
            · rw [hr1, hi1]
              simp
            · exact spanTrace_append _ (ds.nextObj + 1) _ p _ _ (by omega) hr3
                (spanTrace_of_le_one _ _ _ hi2 hi3) hr2
            · omega

theorem wiredOuterLoop_span (A : Nat) (hook : String) (p : Params) :
    ∀ (f w0 : Nat) (ds : DS),
    ∃ l, (wiredOuterLoop A hook p w0 f ds).trace = ds.trace ++ l
      ∧ SpanTrace ds.nextObj (wiredOuterLoop A hook p w0 f ds).nextObj p l
      ∧ ds.nextObj ≤ (wiredOuterLoop A hook p w0 f ds).nextObj := by
  intro f
  induction f with
  | zero =>
    intro w0 ds
    have heq : wiredOuterLoop A hook p w0 0 ds = ds := by simp [wiredOuterLoop]
    rw [heq]
    exact ⟨[], by simp, spanTrace_nil _ _ _, le_refl _⟩
  | succ f ih =>
    intro w0 ds
    by_cases he : ds.err.isSome
    · have heq : wiredOuterLoop A hook p w0 (f + 1) ds = ds := by
        simp [wiredOuterLoop, he]
      rw [heq]
      exact ⟨[], by simp, spanTrace_nil _ _ _, le_refl _⟩
    · cases hg : ((ds.world A).wiredEmitters).get? w0 with
      | none =>
        have heq : wiredOuterLoop A hook p w0 (f + 1) ds = ds := by
          rw [List.get?_eq_getElem?] at hg
          simp [wiredOuterLoop, he, hg]
        rw [heq]
        exact ⟨[], by simp, spanTrace_nil _ _ _, le_refl _⟩
      | some wId =>
        cases hl : lookupHook (ds.world wId).instanceEvents hook with
        | none =>
          have heq : wiredOuterLoop A hook p w0 (f + 1) ds
              = wiredOuterLoop A hook p (w0 + 1) f ds := by
            rw [List.get?_eq_getElem?] at hg
            simp [wiredOuterLoop, he, hg, hl]
          rw [heq]
          exact ih (w0 + 1) ds
        | some evs =>
          have heq : wiredOuterLoop A hook p w0 (f + 1) ds
              = wiredOuterLoop A hook p (w0 + 1) f
                  (wiredInnerLoop wId hook p 0 (evs.length + 1) ds) := by
            rw [List.get?_eq_getElem?] at hg
            simp [wiredOuterLoop, he, hg, hl]
          rw [heq]
          obtain ⟨l1, h11, h12, h13⟩ := wiredInnerLoop_span wId hook p (evs.length + 1) 0 ds
          obtain ⟨l2, h21, h22, h23⟩ :=
            ih (w0 + 1) (wiredInnerLoop wId hook p 0 (evs.length + 1) ds)
          refine ⟨l1 ++ l2, ?_, ?_, ?_⟩
          · rw [h21, h11]
            simp
          · exact spanTrace_append _ _ _ p _ _ h13 h23 h12 h22
          · omega

theorem fire_span (ds : DS) (A : Nat) (hook : String) (p : Params) :
    ∃ l, (fire ds A hook p).1.trace = ds.trace ++ l
      ∧ SpanTrace ds.nextObj (fire ds A hook p).1.nextObj p l
      ∧ ds.nextObj ≤ (fire ds A hook p).1.nextObj := by
  cases hl : lookupHook (ds.world A).instanceEvents hook with
  | none =>
    have heq : (fire ds A hook p).1
        = wiredOuterLoop A hook p 0 ((ds.world A).wiredEmitters.length + 1) ds := by
      simp [fire, hl]
    rw [heq]
    exact wiredOuterLoop_span A hook p _ 0 ds
  | some evs =>
    have heq : (fire ds A hook p).1
        = wiredOuterLoop A hook p 0
            (((localLoop A hook p 0 evs.length ds).world A).wiredEmitters.length + 1)
            (localLoop A hook p 0 evs.length ds) := by
      simp [fire, hl]
    rw [heq]
    obtain ⟨l1, h11, h12, h13⟩ := localLoop_span A hook p evs.length 0 ds
    obtain ⟨l2, h21, h22, h23⟩ :=
      wiredOuterLoop_span A hook p
        (((localLoop A hook p 0 evs.length ds).world A).wiredEmitters.length + 1) 0
        (localLoop A hook p 0 evs.length ds)
    refine ⟨l1 ++ l2, ?_, ?_, ?_⟩
    · rw [h21, h11]
      simp
    · exact spanTrace_append _ _ _ p _ _ h13 h23 h12 h22
    · omega

/-- C8: every callback invocation in one fire dispatch receives an args
object freshly allocated for that invocation: across the whole trace of the
dispatch (including the wired emitters and even when a callback mutates the
emitters or the dispatch aborts on an error), the allocation ids of the
received objects are pairwise distinct — the object handed to one callback
is never the object handed to another, so mutating it cannot affect what
any other callback receives — and every received object's contents are
exactly the dispatched params (the shallow copy). -/
theorem fire_params_fresh_copies (ds : DS) (A : Nat) (hook : String) (p : Params)
    (ht : ds.trace = []) :
    ((fire ds A hook p).1.trace.Pairwise (fun a b => a.argId ≠ b.argId))
    ∧ (∀ en ∈ (fire ds A hook p).1.trace, en.contents = p) := by
  obtain ⟨l, h1, ⟨hb, hp⟩, _⟩ := fire_span ds A hook p
  rw [h1, ht, List.nil_append]
  exact ⟨hp.imp (fun h => Nat.ne_of_lt h), fun en hen => (hb en hen).2⟩

theorem fire_params_fresh_copies_witness :
    ((fire ⟨fun _ => ⟨[("h", [⟨"h", Callback.user 1, 0, []⟩, ⟨"h", Callback.user 2, 0, []⟩])],
          [], []⟩, [], 0, none⟩ 0 "h" [("k", 5)]).1.trace.Pairwise
        (fun a b => a.argId ≠ b.argId))
    ∧ (∀ en ∈ (fire ⟨fun _ => ⟨[("h", [⟨"h", Callback.user 1, 0, []⟩, ⟨"h", Callback.user 2, 0, []⟩])],
          [], []⟩, [], 0, none⟩ 0 "h" [("k", 5)]).1.trace, en.contents = [("k", 5)]) :=
  fire_params_fresh_copies
    ⟨fun _ => ⟨[("h", [⟨"h", Callback.user 1, 0, []⟩, ⟨"h", Callback.user 2, 0, []⟩])],
      [], []⟩, [], 0, none⟩ 0 "h" [("k", 5)] rfl
